import Mathlib

/-!
Shallow embedding of the core conversion algorithm of
`src/parse_file_listings.py` (the `dtparse` repository).

Lines of text are modelled as `List Char`.  The Python list `path_stack`
(whose mutations are `append` and `pop` at the right end) is modelled with
its top at the head of a Lean list, i.e. reversed; `append` becomes cons,
`pop` becomes dropping the head, and the join of source line 109 reverses
the model stack first, so lengths and membership are unchanged.  Python
exceptions (`ZeroDivisionError` from the division of source line 90 when
the indent level is zero, `IndexError` from `list.pop()` on an empty list)
are modelled with `Except String`.
-/

namespace Dtparse

instance {ε α : Type} [DecidableEq ε] [DecidableEq α] : DecidableEq (Except ε α) :=
  fun x y =>
    match x, y with
    | .error a, .error b => decidable_of_iff (a = b) (by simp)
    | .error _, .ok _ => .isFalse (by simp)
    | .ok _, .error _ => .isFalse (by simp)
    | .ok a, .ok b => decidable_of_iff (a = b) (by simp)

/-- The characters removed by Python `str.strip()`: exactly those with
`str.isspace()` true, i.e. the Unicode whitespace set
U+0009-U+000D, U+001C-U+001F, U+0020, U+0085, U+00A0, U+1680,
U+2000-U+200A, U+2028, U+2029, U+202F, U+205F and U+3000. -/
def isPySpace (c : Char) : Bool :=
  decide ((0x09 ≤ c.toNat ∧ c.toNat ≤ 0x0d) ∨
    (0x1c ≤ c.toNat ∧ c.toNat ≤ 0x1f) ∨
    c.toNat = 0x20 ∨ c.toNat = 0x85 ∨ c.toNat = 0xa0 ∨ c.toNat = 0x1680 ∨
    (0x2000 ≤ c.toNat ∧ c.toNat ≤ 0x200a) ∨
    c.toNat = 0x2028 ∨ c.toNat = 0x2029 ∨ c.toNat = 0x202f ∨
    c.toNat = 0x205f ∨ c.toNat = 0x3000)

/-- Python `s.strip()`: remove leading and trailing whitespace. -/
def pyStrip (l : List Char) : List Char :=
  ((l.dropWhile isPySpace).reverse.dropWhile isPySpace).reverse

/-- Source lines 29-40: count the leading characters of `line` that are
members of `ignore_characters`; the count at the first non-member is the
index where the name starts, and the line length is returned when every
character is a member. -/
def find_file_or_directory_name_start_position : List Char → List Char → Nat
  | [], _ => 0
  | c :: cs, ignore_characters =>
    if c ∈ ignore_characters then
      find_file_or_directory_name_start_position cs ignore_characters + 1
    else
      0

/-- The configuration fields of the source that the core conversion reads:
the base ignore list (already Unicode-decoded), the blocklist, the indent
level, the prefix segment of `args` (source default `C:`), and the
separator choice of source line 65. -/
structure Config where
  character_ignore_list : List Char
  blocklist : List Char
  indent_level : Int
  path_pre : List Char
  unix_separators : Bool

/-- Source lines 58-62: the ignore set used for the boundary scan is the
base ignore list plus every blocklist character. -/
def Config.ignore_chars (cfg : Config) : List Char :=
  cfg.character_ignore_list ++ cfg.blocklist

/-- Source line 65: a slash for UNIX separators, otherwise a backslash. -/
def Config.path_separator (cfg : Config) : List Char :=
  if cfg.unix_separators then ['/'] else ['\\']

/-- Source lines 86-88: `replace(ch, "")` on the extracted name for each
blocklist character in turn. -/
def removeBlocked (blocklist : List Char) (name : List Char) : List Char :=
  blocklist.foldl (fun acc ch => acc.filter (fun c => c != ch)) name

/-- Source line 90: `int(starting_position / args.indent_level)`, real
division truncated toward zero (`Int.tdiv` agrees on these arguments),
raising `ZeroDivisionError` when the indent level is zero. -/
def directory_level (starting_position : Nat) (indent_level : Int) :
    Except String Int :=
  if indent_level = 0 then
    .error ("ZeroDivisionError")
  else
    .ok (Int.tdiv (starting_position : Int) indent_level)

/-- Source lines 102-103: `while current_directory_level < len(path_stack) - 1:
path_stack.pop()`; `pop` on an empty list raises `IndexError`.  The model
stack is reversed, so the pop drops the head. -/
def unwind (level : Int) : List (List Char) → Except String (List (List Char))
  | [] =>
    if level < (0 : Int) - 1 then .error ("IndexError") else .ok []
  | seg :: t =>
    if level < (((seg :: t).length : Int) - 1) then unwind level t
    else .ok (seg :: t)

/-- Source lines 102-108: pop while too deep, pop once more on an exact
level match away from the root (replacing a sibling), then append the new
name. -/
def advance (level : Int) (name : List Char) (path_stack : List (List Char)) :
    Except String (List (List Char)) :=
  match unwind level path_stack with
  | .error e => .error e
  | .ok s =>
    if level = ((s.length : Int) - 1) ∧ ((s.length : Int) - 1) ≠ 0 then
      match s with
      | [] => .error ("IndexError")
      | _ :: t => .ok (name :: t)
    else
      .ok (name :: s)

/-- The join of source line 109; the model stack is reversed first. -/
def joinStack (sep : List Char) (path_stack : List (List Char)) : List Char :=
  List.intercalate sep path_stack.reverse

/-- Source lines 67-109: the conversion loop; returns the produced
`output_lines` together with the final `path_stack`. -/
def processLines (cfg : Config) (path_stack : List (List Char)) :
    List (List Char) → Except String (List (List Char) × List (List Char))
  | [] => .ok ([], path_stack)
  | line :: rest =>
    if pyStrip line = [] then
      processLines cfg path_stack rest
    else
      let starting_position :=
        find_file_or_directory_name_start_position line cfg.ignore_chars
      let file_or_directory_name :=
        removeBlocked cfg.blocklist (pyStrip (line.drop starting_position))
      match directory_level starting_position cfg.indent_level with
      | .error e => .error e
      | .ok level =>
        match advance level file_or_directory_name path_stack with
        | .error e => .error e
        | .ok stack' =>
          match processLines cfg stack' rest with
          | .error e => .error e
          | .ok (outs, final) =>
            .ok (joinStack cfg.path_separator stack' :: outs, final)

/-- The pure core of source `process_file_listing`: start from the
singleton stack holding the configured prefix segment and return the
produced output lines. -/
def process_file_listing (cfg : Config) (lines : List (List Char)) :
    Except String (List (List Char)) :=
  (processLines cfg [cfg.path_pre] lines).map Prod.fst

/-- Scenario configuration: ignore set a single space, indent width 2,
prefix segment `C:`, Windows separators, empty blocklist. -/
def cfgA : Config := ⟨[' '], [], 2, "C:".toList, false⟩

/-- The same configuration with indent width 0. -/
def cfgZero : Config := ⟨[' '], [], 0, "C:".toList, false⟩

/-- The same configuration with indent width -1. -/
def cfgNeg : Config := ⟨[' '], [], -1, "C:".toList, false⟩

/-- The same configuration with a blocklist holding a colon. -/
def cfgC : Config := ⟨[' '], [':'], 2, "C:".toList, false⟩

/-- Ignore set holding only the letter x, indent width 2. -/
def cfgX : Config := ⟨['x'], [], 2, "C:".toList, false⟩

/- ### Helper lemmas about the embedded definitions -/

theorem getLast?_cons_of_ne_nil (x : List Char) {l : List (List Char)}
    (h : l ≠ []) : (x :: l).getLast? = l.getLast? := by
  cases l with
  | nil => exact absurd rfl h
  | cons b t => exact List.getLast?_cons_cons

theorem getLast?_drop_of_ne_nil :
    ∀ {l : List (List Char)} {n : Nat}, l.drop n ≠ [] →
      (l.drop n).getLast? = l.getLast? := by
  intro l
  induction l with
  | nil => intro n h; simp at h
  | cons a t ih =>
    intro n h
    cases n with
    | zero => rfl
    | succ n =>
      rw [List.drop_succ_cons] at h ⊢
      have ht : t ≠ [] := by
        intro he
        rw [he] at h
        simp at h
      rw [ih h, getLast?_cons_of_ne_nil a ht]

/-- For a non-negative level the unwind loop never errors: it keeps the
shallowest `level + 1` stack segments (in the reversed model, the last
`level + 1` elements, obtained by dropping from the head). -/
theorem unwind_eq_drop (level : Int) (hl : 0 ≤ level) :
    ∀ s : List (List Char),
      unwind level s = .ok (s.drop (s.length - (level.toNat + 1))) := by
  intro s
  induction s with
  | nil =>
    rw [unwind, if_neg (by omega)]
    simp
  | cons a t ih =>
    rw [unwind]
    by_cases h : level < (((a :: t).length : Int) - 1)
    · rw [if_pos h, ih]
      have hk : level.toNat + 1 ≤ t.length := by
        simp only [List.length_cons] at h
        omega
      have h2 : (a :: t).length - (level.toNat + 1) =
          (t.length - (level.toNat + 1)) + 1 := by
        simp only [List.length_cons]
        omega
      rw [h2, List.drop_succ_cons]
    · rw [if_neg h]
      have h0 : (a :: t).length - (level.toNat + 1) = 0 := by
        simp only [List.length_cons] at h ⊢
        omega
      rw [h0, List.drop_zero]

theorem advance_unfold (level : Int) (name : List Char)
    (s u : List (List Char)) (h : unwind level s = .ok u) :
    advance level name s =
      if level = ((u.length : Int) - 1) ∧ ((u.length : Int) - 1) ≠ 0 then
        match u with
        | [] => Except.error ("IndexError")
        | _ :: t => Except.ok (name :: t)
      else Except.ok (name :: u) := by
  rw [advance, h]

/-- For a non-negative level and a non-empty stack, the advance step
succeeds, pushes the name on top, keeps the stack non-empty, and preserves
the bottom segment (the element of source index 0). -/
theorem advance_ok (level : Int) (hl : 0 ≤ level) (name : List Char)
    (s : List (List Char)) (hs : s ≠ []) :
    ∃ s', advance level name s = .ok s' ∧ s'.head? = some name ∧
      s' ≠ [] ∧ s'.getLast? = s.getLast? := by
  have hu := unwind_eq_drop level hl s
  set u := s.drop (s.length - (level.toNat + 1)) with hudef
  have hslen : s.length ≠ 0 := by
    intro h
    exact hs (List.length_eq_zero.mp h)
  have hulen : u.length = s.length - (s.length - (level.toNat + 1)) := by
    rw [hudef, List.length_drop]
  have hune : u ≠ [] := by
    intro h
    rw [h] at hulen
    simp at hulen
    omega
  have hulast : u.getLast? = s.getLast? := getLast?_drop_of_ne_nil hune
  rw [advance_unfold level name s u hu]
  by_cases hc : level = ((u.length : Int) - 1) ∧ ((u.length : Int) - 1) ≠ 0
  · rw [if_pos hc]
    obtain ⟨b, t, hbt⟩ : ∃ b t, u = b :: t := List.exists_cons_of_ne_nil hune
    have htne : t ≠ [] := by
      intro he
      rw [hbt, he] at hc
      simp at hc
    rw [hbt]
    refine ⟨name :: t, rfl, rfl, by simp, ?_⟩
    rw [getLast?_cons_of_ne_nil name htne, ← hulast, hbt,
      getLast?_cons_of_ne_nil b htne]
  · rw [if_neg hc]
    exact ⟨name :: u, rfl, rfl, by simp,
      by rw [getLast?_cons_of_ne_nil name hune, hulast]⟩

theorem removeBlocked_nil (blocklist : List Char) :
    removeBlocked blocklist [] = [] := by
  induction blocklist with
  | nil => rfl
  | cons b t ih => exact ih

theorem processLines_blank_cons (cfg : Config) (s : List (List Char))
    (line : List Char) (rest : List (List Char)) (h : pyStrip line = []) :
    processLines cfg s (line :: rest) = processLines cfg s rest := by
  rw [processLines, if_pos h]

theorem processLines_all_blank (cfg : Config) (s : List (List Char)) :
    ∀ lines : List (List Char), (∀ l ∈ lines, pyStrip l = []) →
      processLines cfg s lines = .ok ([], s) := by
  intro lines
  induction lines with
  | nil => intro _; rfl
  | cons l ls ih =>
    intro h
    rw [processLines_blank_cons cfg s l ls (h l (by simp)),
      ih (fun x hx => h x (by simp [hx]))]

theorem tdiv_cast_nonneg (n : Nat) (b : Int) (hb : 0 < b) :
    0 ≤ Int.tdiv (n : Int) b :=
  Int.tdiv_nonneg (by omega) (by omega)

theorem processLines_cons_eq (cfg : Config) (s : List (List Char))
    (line : List Char) (rest : List (List Char)) (hb : ¬ pyStrip line = [])
    (lvl : Int) (stack' : List (List Char))
    (hdiv : directory_level
        (find_file_or_directory_name_start_position line cfg.ignore_chars)
        cfg.indent_level = .ok lvl)
    (hadv : advance lvl
        (removeBlocked cfg.blocklist (pyStrip (line.drop
          (find_file_or_directory_name_start_position line cfg.ignore_chars))))
        s = .ok stack') :
    processLines cfg s (line :: rest) =
      match processLines cfg stack' rest with
      | .error e => .error e
      | .ok (outs, final) =>
        .ok (joinStack cfg.path_separator stack' :: outs, final) := by
  rw [processLines, if_neg hb]
  simp only [hdiv, hadv]

/-- With a positive indent level, processing any list of lines from a
non-empty stack succeeds, ends with a non-empty stack, and preserves the
bottom segment. -/
theorem processLines_ok (cfg : Config) (hind : 1 ≤ cfg.indent_level) :
    ∀ (lines : List (List Char)) (s : List (List Char)), s ≠ [] →
      ∃ outs s', processLines cfg s lines = .ok (outs, s') ∧ s' ≠ [] ∧
        s'.getLast? = s.getLast? := by
  intro lines
  induction lines with
  | nil => exact fun s hs => ⟨[], s, rfl, hs, rfl⟩
  | cons line rest ih =>
    intro s hs
    by_cases hb : pyStrip line = []
    · rw [processLines_blank_cons cfg s line rest hb]
      exact ih s hs
    · have hnz : cfg.indent_level ≠ 0 := by omega
      set sp := find_file_or_directory_name_start_position line cfg.ignore_chars
        with hsp
      have hdiv : directory_level sp cfg.indent_level =
          .ok (Int.tdiv (sp : Int) cfg.indent_level) := by
        rw [directory_level, if_neg hnz]
      have hnn : 0 ≤ Int.tdiv (sp : Int) cfg.indent_level :=
        tdiv_cast_nonneg sp cfg.indent_level (by omega)
      obtain ⟨s1, hadv, hh, hne1, hl1⟩ :=
        advance_ok _ hnn
          (removeBlocked cfg.blocklist (pyStrip (line.drop sp))) s hs
      obtain ⟨outs, s2, hp, hne2, hl2⟩ := ih s1 hne1
      refine ⟨joinStack cfg.path_separator s1 :: outs, s2, ?_, hne2,
        hl2.trans hl1⟩
      rw [processLines_cons_eq cfg s line rest hb _ s1 hdiv hadv, hp]

theorem find_le_length (line ig : List Char) :
    find_file_or_directory_name_start_position line ig ≤ line.length := by
  induction line with
  | nil => simp [find_file_or_directory_name_start_position]
  | cons c cs ih =>
    rw [find_file_or_directory_name_start_position]
    by_cases h : c ∈ ig
    · rw [if_pos h]
      simp only [List.length_cons]
      omega
    · rw [if_neg h]
      simp

theorem find_before_mem (line ig : List Char) :
    ∀ j, j < find_file_or_directory_name_start_position line ig →
      ∃ c, line.get? j = some c ∧ c ∈ ig := by
  induction line with
  | nil =>
    intro j h
    rw [find_file_or_directory_name_start_position] at h
    omega
  | cons c cs ih =>
    intro j h
    rw [find_file_or_directory_name_start_position] at h
    by_cases hc : c ∈ ig
    · rw [if_pos hc] at h
      cases j with
      | zero => exact ⟨c, rfl, hc⟩
      | succ j =>
        obtain ⟨d, hd, hdm⟩ := ih j (by omega)
        exact ⟨d, by simpa using hd, hdm⟩
    · rw [if_neg hc] at h
      omega

theorem find_stop (line ig : List Char) :
    ∀ c, line.get? (find_file_or_directory_name_start_position line ig) =
      some c → c ∉ ig := by
  induction line with
  | nil =>
    intro c h
    simp at h
  | cons a cs ih =>
    intro c h
    rw [find_file_or_directory_name_start_position] at h
    by_cases ha : a ∈ ig
    · rw [if_pos ha] at h
      exact ih c (by simpa using h)
    · rw [if_neg ha] at h
      simp at h
      rw [← h]
      exact ha

theorem find_eq_length_of_all (line ig : List Char)
    (h : ∀ c ∈ line, c ∈ ig) :
    find_file_or_directory_name_start_position line ig = line.length := by
  induction line with
  | nil => rfl
  | cons c cs ih =>
    rw [find_file_or_directory_name_start_position,
      if_pos (h c (by simp)), ih (fun x hx => h x (by simp [hx]))]
    rfl

/- ### Claim theorems -/

/-- C5: the boundary scanner returns the smallest index whose character is
not a member of the ignore set — every smaller index holds a member, the
returned index (when inside the line) holds a non-member — and it returns
the line length when every character of the line is a member. -/
theorem c5_boundary_scan_spec (line ignore_characters : List Char) :
    find_file_or_directory_name_start_position line ignore_characters ≤
      line.length ∧
    (∀ j, j < find_file_or_directory_name_start_position line
        ignore_characters →
      ∃ c, line.get? j = some c ∧ c ∈ ignore_characters) ∧
    (∀ c, line.get? (find_file_or_directory_name_start_position line
        ignore_characters) = some c → c ∉ ignore_characters) ∧
    ((∀ c ∈ line, c ∈ ignore_characters) →
      find_file_or_directory_name_start_position line ignore_characters =
        line.length) :=
  ⟨find_le_length line ignore_characters,
   find_before_mem line ignore_characters,
   find_stop line ignore_characters,
   find_eq_length_of_all line ignore_characters⟩

/-- Witness for C5 at a concrete line made only of ignored characters. -/
theorem c5_boundary_scan_spec_witness :
    find_file_or_directory_name_start_position ("xx".toList) ['x'] =
      ("xx".toList).length :=
  (c5_boundary_scan_spec ("xx".toList) ['x']).2.2.2 (by decide)

/-- C1 counterexample: on Scenario A's configuration and input lines the
conversion does not produce the output sequence the claim states. -/
theorem c1_scenarioA_claimed_output_false :
    ¬ (process_file_listing cfgA
        [ "root".toList, "  child".toList, "    grandchild".toList,
          "  sibling".toList ] =
      Except.ok [ "C:\\root".toList, "C:\\root\\child".toList,
        "C:\\root\\child\\grandchild".toList,
        "C:\\root\\sibling".toList ]) := by
  decide

/-- C1 amended: on Scenario A's configuration and input lines the
conversion produces `C:\root`, `C:\child`, `C:\child\grandchild`,
`C:\sibling`, in that order — an entry whose depth equals the current
stack depth replaces the stack top, so `child` at depth 1 replaces
`root` instead of nesting under it. -/
theorem c1_scenarioA_actual_output :
    process_file_listing cfgA
        [ "root".toList, "  child".toList, "    grandchild".toList,
          "  sibling".toList ] =
      Except.ok [ "C:\\root".toList, "C:\\child".toList,
        "C:\\child\\grandchild".toList, "C:\\sibling".toList ] := by
  decide

/-- C3 counterexample: on Scenario B's input the second produced path is
not `C:\a\\\deep`; no empty intermediate segment is created. -/
theorem c3_scenarioB_claimed_output_false :
    ¬ (process_file_listing cfgA [ "a".toList, "    deep".toList ] =
      Except.ok [ "C:\\a".toList, "C:\\a\\\\\\deep".toList ]) := by
  decide

/-- C3 amended: a depth jump from 0 directly to 2 is accepted without
validation, and the stack nests exactly one level: the outputs are
`C:\a` and `C:\a\deep`, and the final stack is `[prefix, a, deep]`
(reversed in the model), with no empty segment. -/
theorem c3_scenarioB_actual_output :
    process_file_listing cfgA [ "a".toList, "    deep".toList ] =
      Except.ok [ "C:\\a".toList, "C:\\a\\deep".toList ] ∧
    (processLines cfgA [ "C:".toList ] [ "a".toList, "    deep".toList ]).map
        Prod.snd =
      Except.ok [ "deep".toList, "a".toList, "C:".toList ] := by
  constructor
  · decide
  · decide

/-- C9: blocklisted characters are removed from a name wherever they
occur (the sequence of replace calls equals one filter), and with a
blocklist holding a colon the line `file:v2` produces the output path
`C:\filev2`. -/
theorem c9_blocklist_removal :
    (∀ blocklist name : List Char,
      removeBlocked blocklist name =
        name.filter (fun c => !(blocklist.contains c))) ∧
    process_file_listing cfgC [ "file:v2".toList ] =
      Except.ok [ "C:\\filev2".toList ] := by
  constructor
  · intro blocklist
    induction blocklist with
    | nil =>
      intro name
      simp [removeBlocked]
    | cons b t ih =>
      intro name
      have hstep : removeBlocked (b :: t) name =
          removeBlocked t (name.filter (fun c => c != b)) := rfl
      rw [hstep, ih, List.filter_filter]
      apply List.filter_congr
      intro a _
      rw [List.contains_cons, Bool.not_or, Bool.and_comm]
      rfl
  · decide

/-- C2 counterexample: after the advance step for a first entry of depth 0
the stack is `[prefix, root]` — its length is 2, so length minus one is 1,
not the depth 0. -/
theorem c2_depth_zero_stack_length :
    advance 0 ("root".toList) [ "C:".toList ] =
      Except.ok [ "root".toList, "C:".toList ] ∧
    ¬ ([ "root".toList, "C:".toList ].length - 1 = 0) := by
  constructor
  · decide
  · decide

/-- C2 amended: after a successful advance step for an entry of depth
d ≥ 1 with d at most the previous stack length, the stack length equals
d + 1; for an entry of depth 0 on a non-empty stack the new length is 2. -/
theorem c2_advance_stack_length (level : Int) (name : List Char)
    (s : List (List Char)) :
    (1 ≤ level → level ≤ (s.length : Int) →
      ∃ s', advance level name s = .ok s' ∧
        (s'.length : Int) = level + 1) ∧
    (level = 0 → s ≠ [] →
      ∃ s', advance level name s = .ok s' ∧ s'.length = 2) := by
  constructor
  · intro h1 h2
    have hl : 0 ≤ level := by omega
    have hu := unwind_eq_drop level hl s
    set u := s.drop (s.length - (level.toNat + 1)) with hudef
    have hulen : u.length = s.length - (s.length - (level.toNat + 1)) := by
      rw [hudef, List.length_drop]
    rw [advance_unfold level name s u hu]
    by_cases hk : level.toNat + 1 ≤ s.length
    · have hul : u.length = level.toNat + 1 := by omega
      have hcond : level = ((u.length : Int) - 1) ∧
          ((u.length : Int) - 1) ≠ 0 := by
        rw [hul]
        constructor
        · push_cast
          omega
        · push_cast
          omega
      rw [if_pos hcond]
      obtain ⟨b, t, hbt⟩ : ∃ b t, u = b :: t :=
        List.exists_cons_of_ne_nil (by
          intro h
          rw [h] at hul
          simp at hul)
      rw [hbt]
      refine ⟨name :: t, rfl, ?_⟩
      have ht : t.length = level.toNat := by
        have := congrArg List.length hbt
        simp only [List.length_cons] at this
        omega
      simp only [List.length_cons, ht]
      push_cast
      omega
    · have hul : u.length = s.length := by omega
      have hcond : ¬ (level = ((u.length : Int) - 1) ∧
          ((u.length : Int) - 1) ≠ 0) := by
        rw [hul]
        intro hc
        have := hc.1
        omega
      rw [if_neg hcond]
      refine ⟨name :: u, rfl, ?_⟩
      simp only [List.length_cons, hul]
      push_cast
      omega
  · intro h0 hs
    subst h0
    have hu := unwind_eq_drop 0 (by omega) s
    set u := s.drop (s.length - (Int.toNat 0 + 1)) with hudef
    have hsl : s.length ≠ 0 := fun h => hs (List.length_eq_zero.mp h)
    have hulen : u.length = s.length - (s.length - (Int.toNat 0 + 1)) := by
      rw [hudef, List.length_drop]
    have hul : u.length = 1 := by
      simp only [Int.toNat_zero] at hulen
      omega
    rw [advance_unfold 0 name s u hu]
    have hcond : ¬ ((0 : Int) = ((u.length : Int) - 1) ∧
        ((u.length : Int) - 1) ≠ 0) := by
      rw [hul]
      simp
    rw [if_neg hcond]
    exact ⟨name :: u, rfl, by simp [List.length_cons, hul]⟩

/-- Witness for C2's amended statement at depth 1 on a two-segment
stack. -/
theorem c2_advance_stack_length_witness :
    ∃ s', advance 1 ("b".toList) [ "a".toList, "C:".toList ] = .ok s' ∧
      ((s'.length : Int) = 1 + 1) :=
  (c2_advance_stack_length 1 ("b".toList) [ "a".toList, "C:".toList ]).1
    (by decide) (by decide)

/-- C4 counterexample: with indent width 0 the conversion is not rejected
before processing — a blank-only input is processed and succeeds, and a
non-empty line reaches the per-line depth division, which fails; a
negative indent width is not rejected either. -/
theorem c4_indent_zero_not_rejected :
    process_file_listing cfgZero [ "  ".toList ] = Except.ok [] ∧
    process_file_listing cfgZero [ "root".toList ] =
      Except.error ("ZeroDivisionError") ∧
    process_file_listing cfgNeg [ "root".toList ] =
      Except.ok [ "C:\\root".toList ] := by
  refine ⟨by decide, by decide, by decide⟩

/-- C4 amended: an indent width of zero is not validated at configuration
time: blank lines are still examined and skipped (an all-blank input
succeeds), and the conversion fails with a division error at the first
non-empty line's depth computation. -/
theorem c4_indent_zero_behavior (cfg : Config) (s : List (List Char))
    (line : List Char) (rest lines : List (List Char))
    (h0 : cfg.indent_level = 0) :
    ((∀ l ∈ lines, pyStrip l = []) →
      process_file_listing cfg lines = Except.ok []) ∧
    (pyStrip line ≠ [] →
      processLines cfg s (line :: rest) =
        Except.error ("ZeroDivisionError")) := by
  constructor
  · intro hall
    rw [process_file_listing,
      processLines_all_blank cfg [cfg.path_pre] lines hall]
    rfl
  · intro hb
    rw [processLines, if_neg hb]
    have hdiv : directory_level
        (find_file_or_directory_name_start_position line cfg.ignore_chars)
        cfg.indent_level = Except.error ("ZeroDivisionError") := by
      rw [directory_level, if_pos h0]
    simp only [hdiv]

/-- Witness for C4's amended statement on concrete inputs. -/
theorem c4_indent_zero_behavior_witness :
    process_file_listing cfgZero [ [' '] ] = Except.ok [] ∧
    processLines cfgZero [ "C:".toList ] ( "root".toList :: [] ) =
      Except.error ("ZeroDivisionError") :=
  ⟨(c4_indent_zero_behavior cfgZero [] [] [] [ [' '] ] (by decide)).1
      (by decide),
   (c4_indent_zero_behavior cfgZero [ "C:".toList ] ("root".toList) [] []
      (by decide)).2 (by decide)⟩

/-- C7: a blank line is skipped entirely — processing continues on the
remaining lines with the same stack and no output element — and an
all-blank input yields an empty output sequence with no error. -/
theorem c7_blank_lines_skipped (cfg : Config) (s : List (List Char))
    (line : List Char) (rest lines : List (List Char)) :
    (pyStrip line = [] →
      processLines cfg s (line :: rest) = processLines cfg s rest) ∧
    ((∀ l ∈ lines, pyStrip l = []) →
      processLines cfg s lines = Except.ok ([], s)) ∧
    ((∀ l ∈ lines, pyStrip l = []) →
      process_file_listing cfg lines = Except.ok []) := by
  refine ⟨fun h => processLines_blank_cons cfg s line rest h,
    fun h => processLines_all_blank cfg s lines h, fun h => ?_⟩
  rw [process_file_listing,
    processLines_all_blank cfg [cfg.path_pre] lines h]
  rfl

/-- Witness for C7 at an empty line and a whitespace line. -/
theorem c7_blank_lines_skipped_witness :
    processLines cfgA [ "C:".toList ] ( [] :: [ "root".toList ] ) =
      processLines cfgA [ "C:".toList ] [ "root".toList ] ∧
    process_file_listing cfgA [ [], [' '] ] = Except.ok [] :=
  ⟨(c7_blank_lines_skipped cfgA [ "C:".toList ] [] [ "root".toList ]
      []).1 (by decide),
   (c7_blank_lines_skipped cfgA [ "C:".toList ] [] [] [ [], [' '] ]).2.2
      (by decide)⟩

/-- C8: with non-negative depths the path stack never empties: a single
advance step, and a whole run with a positive indent width, both succeed,
keep the stack non-empty, and preserve the bottom segment — the
configured prefix at source index 0. -/
theorem c8_stack_never_empties (cfg : Config) (level : Int)
    (name : List Char) (lines : List (List Char)) (s : List (List Char)) :
    (0 ≤ level → s ≠ [] →
      ∃ s', advance level name s = .ok s' ∧ s' ≠ [] ∧
        s'.getLast? = s.getLast?) ∧
    (1 ≤ cfg.indent_level → s ≠ [] →
      ∃ outs s', processLines cfg s lines = .ok (outs, s') ∧ s' ≠ [] ∧
        s'.getLast? = s.getLast?) := by
  constructor
  · intro hl hs
    obtain ⟨s', h1, _, h3, h4⟩ := advance_ok level hl name s hs
    exact ⟨s', h1, h3, h4⟩
  · intro hind hs
    exact processLines_ok cfg hind lines s hs

/-- Witness for C8 on a concrete run. -/
theorem c8_stack_never_empties_witness :
    ∃ outs s', processLines cfgA [ "C:".toList ] [ "root".toList ] =
      .ok (outs, s') ∧ s' ≠ [] ∧
      s'.getLast? = [ "C:".toList ].getLast? :=
  (c8_stack_never_empties cfgA 0 [] [ "root".toList ] [ "C:".toList ]).2
    (by decide) (by decide)

/-- C6 counterexample: a non-empty line consisting entirely of ignored
characters is suppressed, not emitted, when those characters are
whitespace: with ignore set a single space, a line of two spaces
contributes no output element. -/
theorem c6_whitespace_ignored_line_suppressed :
    process_file_listing cfgA [ "  ".toList ] = Except.ok [] ∧
    ¬ (process_file_listing cfgA [ "  ".toList ] =
      Except.ok [ "C:\\".toList ]) := by
  constructor
  · decide
  · decide

/-- C6 amended: a line that is not whitespace-only and consists entirely
of ignore-set characters is processed without error: the boundary index
equals the line length, the extracted name is empty, the depth is the
division of that index by the indent width, an empty-named segment is
pushed on top of the stack, and the joined path is emitted as this line's
output. -/
theorem c6_all_ignored_line (cfg : Config) (s : List (List Char))
    (line : List Char) (rest : List (List Char))
    (hind : 1 ≤ cfg.indent_level) (hs : s ≠ [])
    (hblank : pyStrip line ≠ [])
    (hall : ∀ c ∈ line, c ∈ cfg.ignore_chars) :
    find_file_or_directory_name_start_position line cfg.ignore_chars =
      line.length ∧
    removeBlocked cfg.blocklist
      (pyStrip (line.drop (find_file_or_directory_name_start_position line
        cfg.ignore_chars))) = [] ∧
    ∃ lvl s' outs final,
      directory_level line.length cfg.indent_level = .ok lvl ∧
      advance lvl [] s = .ok s' ∧ s'.head? = some [] ∧
      processLines cfg s (line :: rest) =
        .ok (joinStack cfg.path_separator s' :: outs, final) := by
  have hfind := find_eq_length_of_all line cfg.ignore_chars hall
  have hname : removeBlocked cfg.blocklist
      (pyStrip (line.drop (find_file_or_directory_name_start_position line
        cfg.ignore_chars))) = [] := by
    rw [hfind, List.drop_length]
    exact removeBlocked_nil cfg.blocklist
  refine ⟨hfind, hname, ?_⟩
  have hnz : cfg.indent_level ≠ 0 := by omega
  have hdiv : directory_level line.length cfg.indent_level =
      .ok (Int.tdiv (line.length : Int) cfg.indent_level) := by
    rw [directory_level, if_neg hnz]
  have hnn : 0 ≤ Int.tdiv (line.length : Int) cfg.indent_level :=
    tdiv_cast_nonneg line.length cfg.indent_level (by omega)
  obtain ⟨s', hadv, hh, hne', hl'⟩ := advance_ok _ hnn [] s hs
  obtain ⟨outs, final, hp, _, _⟩ := processLines_ok cfg hind rest s' hne'
  refine ⟨_, s', outs, final, hdiv, hadv, hh, ?_⟩
  rw [processLines_cons_eq cfg s line rest hblank _ s'
    (by rw [hfind]; exact hdiv) (by rw [hname]; exact hadv), hp]

/-- Witness for C6's amended statement: a line of two letters x with
ignore set holding only x. -/
theorem c6_all_ignored_line_witness :
    find_file_or_directory_name_start_position ("xx".toList)
      cfgX.ignore_chars = ("xx".toList).length :=
  (c6_all_ignored_line cfgX [ "C:".toList ] ("xx".toList) []
    (by decide) (by decide) (by decide) (by decide)).1

theorem intercalate_pair (sep a b : List Char) :
    List.intercalate sep [a, b] = a ++ sep ++ b := by
  simp [List.intercalate]

/-- C10: with a positive indent width, the first non-empty line of a
conversion always produces the output path prefix ++ separator ++ name,
whatever its computed depth: nothing is popped from the singleton stack
and no intermediate segment is inserted. -/
theorem c10_first_line_output (cfg : Config) (blanks : List (List Char))
    (line : List Char) (rest : List (List Char))
    (hind : 1 ≤ cfg.indent_level)
    (hblanks : ∀ l ∈ blanks, pyStrip l = [])
    (hline : pyStrip line ≠ []) :
    ∃ outs s',
      processLines cfg [cfg.path_pre] (blanks ++ line :: rest) =
        .ok (outs, s') ∧
      outs.head? = some (cfg.path_pre ++ cfg.path_separator ++
        removeBlocked cfg.blocklist (pyStrip (line.drop
          (find_file_or_directory_name_start_position line
            cfg.ignore_chars)))) := by
  have hskip : ∀ bl : List (List Char), (∀ l ∈ bl, pyStrip l = []) →
      processLines cfg [cfg.path_pre] (bl ++ line :: rest) =
        processLines cfg [cfg.path_pre] (line :: rest) := by
    intro bl
    induction bl with
    | nil => intro _; rfl
    | cons x xs ih =>
      intro hbl
      rw [List.cons_append,
        processLines_blank_cons cfg _ x _ (hbl x (by simp))]
      exact ih (fun y hy => hbl y (by simp [hy]))
  rw [hskip blanks hblanks]
  set sp := find_file_or_directory_name_start_position line cfg.ignore_chars
    with hsp
  set nm := removeBlocked cfg.blocklist (pyStrip (line.drop sp)) with hnm
  have hnz : cfg.indent_level ≠ 0 := by omega
  have hdiv : directory_level sp cfg.indent_level =
      .ok (Int.tdiv (sp : Int) cfg.indent_level) := by
    rw [directory_level, if_neg hnz]
  set lvl := Int.tdiv (sp : Int) cfg.indent_level with hlvl
  have hnn : 0 ≤ lvl := tdiv_cast_nonneg sp cfg.indent_level (by omega)
  have hu : unwind lvl [cfg.path_pre] = .ok [cfg.path_pre] := by
    rw [unwind, if_neg (by simp; omega)]
  have hadv : advance lvl nm [cfg.path_pre] = .ok [nm, cfg.path_pre] := by
    rw [advance_unfold lvl nm [cfg.path_pre] [cfg.path_pre] hu,
      if_neg (by simp)]
  obtain ⟨outs2, final, hp, _, _⟩ :=
    processLines_ok cfg hind rest [nm, cfg.path_pre] (by simp)
  refine ⟨joinStack cfg.path_separator [nm, cfg.path_pre] :: outs2, final,
    ?_, ?_⟩
  · rw [processLines_cons_eq cfg [cfg.path_pre] line rest hline lvl
      [nm, cfg.path_pre] hdiv hadv, hp]
  · simp only [List.head?_cons]
    congr 1
    rw [joinStack]
    show List.intercalate cfg.path_separator [cfg.path_pre, nm] = _
    rw [intercalate_pair]

/-- Witness for C10: a blank line followed by a line at depth 2 still
produces prefix, separator, name. -/
theorem c10_first_line_output_witness :
    ∃ outs s',
      processLines cfgA [cfgA.path_pre] ([ [] ] ++ "    deep".toList :: []) =
        .ok (outs, s') ∧
      outs.head? = some (cfgA.path_pre ++ cfgA.path_separator ++
        removeBlocked cfgA.blocklist (pyStrip (("    deep".toList).drop
          (find_file_or_directory_name_start_position ("    deep".toList)
            cfgA.ignore_chars)))) :=
  c10_first_line_output cfgA [ [] ] ("    deep".toList) []
    (by decide) (by decide) (by decide)

end Dtparse
